import Mathlib

/-!
Shallow embedding of the ArrowDB core (HNSW index wrapper, WAL record codec,
Collection coordinator) and proofs about it.

Modelling conventions:
* machine integers are `Nat` values, truncated with `% 2^w` where the width
  matters (byte serialisation);
* a 32-bit float is represented by its bit pattern, a `Nat` below `2^32`;
  the collection layer never performs float arithmetic on the vectors it
  stores, it only moves them around, so this loses nothing;
* the distances computed inside hnswlib (an external library the repository
  wraps) are abstract `Int` values handed to the search wrapper as the pop
  sequence of the priority queue `searchKnn` returns;
* fallible operations return a status code or `Except`;
* the WAL file I/O is modelled by a `walOk : Bool` oracle (whether the
  append+fsync succeeds) and the durable log content by a list of entries.
-/

namespace ArrowDB

/-- Status codes, from `include/arrow/utils/status.h` (`arrow::utils::StatusCode`). -/
inductive StatusCode where
  | ok
  | invalidArgument
  | notFound
  | alreadyExists
  | unimplemented
  | dimensionMismatch
  | ioError
  | eof
  | corruption
  | checksumMismatch
  | badRecord
  | badHeader
  | versionMismatch
  | internal
deriving DecidableEq, Repr

/-- Distance metrics, from `include/arrow/types.h` (`arrow::DistanceMetric`). -/
inductive DistanceMetric where
  | Cosine
  | L2
  | InnerProduct
deriving DecidableEq, Repr

--------------------------------------------------------------------------
-- Byte-level encoding and CRC-32
--------------------------------------------------------------------------

/-- Little-endian encoding of `v` into `w` bytes (the value is truncated to
`w` bytes, exactly as storing into a `w`-byte machine integer does). -/
def leBytes : Nat → Nat → List Nat
  | 0, _ => []
  | w + 1, v => (v % 256) :: leBytes w (v / 256)

/-- Little-endian value of a byte list. -/
def leVal : List Nat → Nat
  | [] => 0
  | b :: bs => b % 256 + 256 * leVal bs

/-- Read `w` bytes little-endian from the front of a byte stream.
`none` models a short read. -/
def readLE (w : Nat) (s : List Nat) : Option (Nat × List Nat) :=
  if w ≤ s.length then some (leVal (s.take w), s.drop w) else none

/-- Read `n` consecutive `w`-byte little-endian values from the stream. -/
def readWords (w : Nat) : Nat → List Nat → Option (List Nat × List Nat)
  | 0, s => some ([], s)
  | n + 1, s =>
    match readLE w s with
    | none => none
    | some (v, s1) =>
      match readWords w n s1 with
      | none => none
      | some (vs, s2) => some (v :: vs, s2)

/-- The reflected CRC-32 (IEEE 802.3) polynomial. -/
def crc32Poly : Nat := 0xEDB88320

/-- One bit step of the reflected CRC-32. -/
def crc32Bit (c : Nat) : Nat :=
  if c % 2 = 1 then (c / 2) ^^^ crc32Poly else c / 2

/-- Process one byte of input into the CRC accumulator. -/
def crc32Byte (c b : Nat) : Nat :=
  crc32Bit^[8] (c ^^^ (b % 256))

/-- Run the CRC accumulator over a byte list. -/
def crc32Update (c : Nat) (bs : List Nat) : Nat :=
  bs.foldl crc32Byte c

/-- CRC-32 (IEEE 802.3 reflected variant, initial value `0xFFFFFFFF`, final
XOR `0xFFFFFFFF`) of a byte list, per spec section 4.2. -/
def crc32 (bs : List Nat) : Nat :=
  crc32Update 0xFFFFFFFF bs ^^^ 0xFFFFFFFF

--------------------------------------------------------------------------
-- WAL entry record (include/arrow/wal.h, `arrow::wal::Entry`)
--------------------------------------------------------------------------

/-- Numeric values of `OperationType` (`include/arrow/wal.h`): COMMIT_TXN = 1,
ABORT_TXN = 2, INSERT = 3, DELETE = 4, UPDATE = 5, BATCH_INSERT = 6. -/
def opINSERT : Nat := 3

/-- The DELETE operation type tag. -/
def opDELETE : Nat := 4

/-- Smallest valid operation type (`kMinOperationType`). -/
def kMinOperationType : Nat := 1

/-- Largest valid operation type (`kMaxOperationType`). -/
def kMaxOperationType : Nat := 6

/-- Maximum allowed embedding dimension (`kMaxDimension`). -/
def kMaxDimension : Nat := 65536

/-- A WAL entry, mirroring `arrow::wal::Entry` from `include/arrow/wal.h`.
Field widths: `type`, `version` are u16; `lsn`, `txid`, `vectorID` are u64;
`headerCRC`, `payloadLength`, `dimension`, `payloadCRC` are u32; `padding`
is u8; `embedding` holds the f32 bit patterns (u32 each). -/
structure Entry where
  type : Nat
  version : Nat
  lsn : Nat
  txid : Nat
  headerCRC : Nat
  payloadLength : Nat
  vectorID : Nat
  dimension : Nat
  padding : Nat
  embedding : List Nat
  payloadCRC : Nat
deriving DecidableEq, Repr

/-- The on-wire bytes covered by the entry header CRC: `{type, version, lsn,
txid}` in wire order (spec section 4.2, entry CRCs). -/
def entryHeaderBytes (e : Entry) : List Nat :=
  leBytes 2 e.type ++ leBytes 2 e.version ++ leBytes 8 e.lsn ++ leBytes 8 e.txid

/-- Raw bytes of the embedding payload (each f32 as 4 little-endian bytes). -/
def embeddingBytes (emb : List Nat) : List Nat :=
  (emb.map (leBytes 4)).flatten

/-- Embeds `Entry::computeHeaderCrc`: CRC-32 over `{type, version, lsn, txid}`.
Modelled from the spec: the implementation of the `arrow::wal` codec is not
in the repository sources (only its header, tests and callers are); spec
section 4.2 fixes the covered bytes and the CRC variant. -/
def Entry.computeHeaderCrc (e : Entry) : Nat :=
  crc32 (entryHeaderBytes e)

/-- Embeds `Entry::computePayloadCrc`: CRC-32 over the raw embedding bytes.
Modelled from the spec (section 4.2), implementation missing as above. -/
def Entry.computePayloadCrc (e : Entry) : Nat :=
  crc32 (embeddingBytes e.embedding)

/-- Embeds `Entry::computePayloadLength` (inline in `include/arrow/wal.h`):
`embedding.size() * sizeof(float)`. -/
def Entry.computePayloadLength (e : Entry) : Nat :=
  e.embedding.length * 4

/-- The three assignments every caller performs after building an entry
(`collection.cpp`): `headerCRC`, `payloadCRC` and `payloadLength` are set
from the live field values. -/
def finalizeEntry (e : Entry) : Entry :=
  { e with
    headerCRC := e.computeHeaderCrc
    payloadCRC := e.computePayloadCrc
    payloadLength := e.computePayloadLength }

/-- Emit contract of `WriteEntry`. Modelled from the spec (section 4.2): the
codec implementation is not in the repository sources. Fields are written
in wire order; `headerCrc`, `payloadLength` and `payloadCrc` are computed
from the live field values at write time, ignoring any precomputed values
the caller supplied. -/
def WriteEntry (e : Entry) : List Nat :=
  leBytes 2 e.type ++ leBytes 2 e.version ++ leBytes 8 e.lsn ++ leBytes 8 e.txid ++
  leBytes 4 e.computeHeaderCrc ++ leBytes 4 e.computePayloadLength ++
  leBytes 8 e.vectorID ++ leBytes 4 e.dimension ++ leBytes 1 e.padding ++
  embeddingBytes e.embedding ++ leBytes 4 e.computePayloadCrc

/-- Parse errors surfaced by `ParseEntry` (a projection of `StatusCode`). -/
inductive ParseErr where
  | badRecord
  | ioError
  | checksumMismatch
  | corruption
deriving DecidableEq, Repr

/-- Parse contract of `ParseEntry`. Modelled from the spec (section 4.2): the
codec implementation is not in the repository sources. Reads fields in wire
order; rejects `type` outside `[kMinOperationType, kMaxOperationType]` and
`dimension > kMaxDimension` as `BadRecord` before reading the payload; a
short read is `IoError`; recomputes both CRCs and reports a mismatch as
`ChecksumMismatch`; re-checks `dimension = embedding.length` as `BadRecord`.
(The no-forward-progress check of the contract is vacuous in this list
model: every successful read consumes input.) Returns the entry and the
remaining stream. -/
def ParseEntry (s : List Nat) : Except ParseErr (Entry × List Nat) :=
  match readLE 2 s with
  | none => .error .ioError
  | some (ty, s) =>
  match readLE 2 s with
  | none => .error .ioError
  | some (ver, s) =>
  match readLE 8 s with
  | none => .error .ioError
  | some (lsn, s) =>
  match readLE 8 s with
  | none => .error .ioError
  | some (txid, s) =>
  match readLE 4 s with
  | none => .error .ioError
  | some (hcrc, s) =>
  match readLE 4 s with
  | none => .error .ioError
  | some (plen, s) =>
  match readLE 8 s with
  | none => .error .ioError
  | some (vid, s) =>
  match readLE 4 s with
  | none => .error .ioError
  | some (dim, s) =>
  match readLE 1 s with
  | none => .error .ioError
  | some (pad, s) =>
  if ty < kMinOperationType ∨ kMaxOperationType < ty then .error .badRecord
  else if kMaxDimension < dim then .error .badRecord
  else
  match readWords 4 dim s with
  | none => .error .ioError
  | some (emb, s) =>
  match readLE 4 s with
  | none => .error .ioError
  | some (pcrc, s) =>
  let e : Entry :=
    { type := ty, version := ver, lsn := lsn, txid := txid, headerCRC := hcrc,
      payloadLength := plen, vectorID := vid, dimension := dim, padding := pad,
      embedding := emb, payloadCRC := pcrc }
  if e.computeHeaderCrc ≠ hcrc then .error .checksumMismatch
  else if e.computePayloadCrc ≠ pcrc then .error .checksumMismatch
  else if dim ≠ emb.length then .error .badRecord
  else .ok (e, s)

/-- Well-formedness of a WAL entry, per the data-model invariants of spec
section 3: every field fits its wire width, the `type` tag is a valid
operation type, `dimension` equals the embedding length and respects the
hard upper bound, `payloadLength = dimension * 4`, and both CRC fields are
valid (equal to the value computed over the covered bytes). -/
def WellFormedEntry (e : Entry) : Prop :=
  kMinOperationType ≤ e.type ∧ e.type ≤ kMaxOperationType ∧
  e.version < 2 ^ 16 ∧ e.lsn < 2 ^ 64 ∧ e.txid < 2 ^ 64 ∧
  e.vectorID < 2 ^ 64 ∧ e.padding < 2 ^ 8 ∧
  e.dimension = e.embedding.length ∧ e.dimension ≤ kMaxDimension ∧
  (∀ x ∈ e.embedding, x < 2 ^ 32) ∧
  e.payloadLength = e.computePayloadLength ∧
  e.headerCRC = e.computeHeaderCrc ∧
  e.payloadCRC = e.computePayloadCrc

--------------------------------------------------------------------------
-- HNSW index wrapper (src/src/index/hnsw_index.cpp)
--------------------------------------------------------------------------

/-- One search hit, mirroring `arrow::SearchResult` (`{id, score}`); the
float score is modelled as an exact `Int` (the wrapper only multiplies the
library's distance by ±1, so no rounding is involved). -/
structure SearchResult where
  id : Nat
  score : Int
deriving DecidableEq, Repr

/-- State of the wrapped `hnswlib::HierarchicalNSW` instance, abstracted to
what the repository's wrapper code observes: the declared dimension and
metric, the stored `(label, vector-bits)` pairs in insertion order (a
repeated label updates in place, per the library's `addPoint`), and the set
of tombstoned labels. -/
structure HNSWIndex where
  dim : Nat
  metric : DistanceMetric
  elems : List (Nat × List Nat)
  deleted : List Nat
deriving DecidableEq, Repr

/-- Label bookkeeping of `addPoint`: update in place when the label exists,
append otherwise. -/
def updateAssoc : List (Nat × List Nat) → Nat → List Nat → List (Nat × List Nat)
  | [], id, v => [(id, v)]
  | (a, b) :: rest, id, v =>
    if a = id then (id, v) :: rest else (a, b) :: updateAssoc rest id v

/-- Embeds `HNSWIndex::insert` (hnsw_index.cpp lines 45-53): returns `false` on a
dimension mismatch without touching the index, otherwise adds the point via
`addPoint` and returns `true`. -/
def HNSWIndex.insert (idx : HNSWIndex) (id : Nat) (vec : List Nat) :
    HNSWIndex × Bool :=
  if vec.length ≠ idx.dim then (idx, false)
  else ({ idx with elems := updateAssoc idx.elems id vec }, true)

/-- Embeds `HNSWIndex::markDelete` (hnsw_index.cpp lines 107-117): the underlying
`hnswlib` `markDelete` throws "Label not found" exactly when the label was
never inserted, which the wrapper turns into `NotFound`; every other
exception (e.g. deleting an already-deleted label) is swallowed and the
wrapper returns `Ok`. -/
def HNSWIndex.markDelete (idx : HNSWIndex) (id : Nat) :
    HNSWIndex × StatusCode :=
  if id ∈ idx.elems.map (·.1) then
    ({ idx with
       deleted := if id ∈ idx.deleted then idx.deleted else id :: idx.deleted },
     .ok)
  else (idx, .notFound)

/-- The exception escaping `HNSWIndex::search` on a query dimension
mismatch (`throw std::invalid_argument("Query dimension mismatch")`,
hnsw_index.cpp line 60). -/
inductive SearchExn where
  | invalidArgument
deriving DecidableEq, Repr

/-- hnsw_index.cpp line 72: `distToScoreConverter` is `1` for L2 and `-1`
for Cosine/InnerProduct. -/
def distToScoreConverter (metric : DistanceMetric) : Int :=
  if metric = DistanceMetric.L2 then 1 else -1

/-- Embeds `HNSWIndex::search` (hnsw_index.cpp lines 55-87). The call into
`hnswlib::searchKnn` is external; its result, a max-heap of
`(distance, label)` pairs, is modelled by `knn`: the sequence of pairs in
the order the wrapper pops them from the `std::priority_queue` (hence
non-increasing in distance, and of length at most `k`; theorems that rely
on those facts assume them). The wrapper converts each distance to a score
by multiplying with `distToScoreConverter` and reverses the popped list. -/
def HNSWIndex.search (idx : HNSWIndex) (query : List Nat) (k ef : Nat)
    (knn : List (Int × Nat)) : Except SearchExn (List SearchResult) :=
  if query.length ≠ idx.dim then .error .invalidArgument
  else
    .ok ((knn.map fun p =>
      { id := p.2, score := distToScoreConverter idx.metric * p.1 }).reverse)

/-- The distance `hnswlib::L2Space` computes between a query and a stored
vector: the (positive) squared Euclidean distance, smaller = closer.
Modelled from the library contract the source relies on (the comment at
hnsw_index.cpp lines 79-81 states it). Vectors are taken here as exact
integer-valued coordinates. -/
def l2SpaceDist (q v : List Int) : Int :=
  (List.zipWith (fun a b => (a - b) * (a - b)) q v).sum

/-- Modelled from the spec: "for L2, score is the negated squared Euclidean
distance (−‖q−v‖², larger = closer)" — the score the specification says
`search` returns under the L2 metric. -/
def specL2Score (q v : List Int) : Int :=
  - l2SpaceDist q v

/-- Scores of a result list are non-increasing from first to last. -/
def scoresNonIncreasing (l : List SearchResult) : Prop :=
  List.Chain' (fun a b => b.score ≤ a.score) l

--------------------------------------------------------------------------
-- Collection coordinator (src/src/core/collection.cpp)
--------------------------------------------------------------------------

/-- State of a `Collection` (`Collection::Impl`, collection.cpp lines
115-127): config dimension and metric, the owned index, the metadata map
(values abstracted to an opaque `Nat` token), the LSN/TXID counters, the
optional WAL (presence flag plus the durable list of appended entries),
the last-persisted-LSN marker and the recovered-from-WAL bit. -/
structure CollectionState where
  dimensions : Nat
  metric : DistanceMetric
  index : HNSWIndex
  metadata : List (Nat × Nat)
  lsnCounter : Nat
  txidCounter : Nat
  hasWal : Bool
  wal : List Entry
  lastPersistedLsn : Nat
  recoveredFromWal : Bool
deriving DecidableEq, Repr

/-- Embeds `unordered_map::erase` on the metadata map. -/
def eraseAssoc (l : List (Nat × Nat)) (id : Nat) : List (Nat × Nat) :=
  l.filter fun p => p.1 ≠ id

/-- Effect of `pWal_->log(entry)` (the `wal::WAL` coordinator implementation
is not in the repository sources; its effect is modelled from the spec,
section 4.3): when no WAL is configured the call site is skipped; otherwise
the append+fsync either succeeds, making the entry durable, or fails with
an I/O error and the collection state is unchanged. The `walOk` oracle
decides which. -/
def walStep (c : CollectionState) (walOk : Bool) (e : Entry) :
    Except StatusCode CollectionState :=
  if c.hasWal then
    if walOk then .ok { c with wal := c.wal ++ [e] }
    else .error .ioError
  else .ok c

/-- The INSERT WAL entry `Collection::insert` and `Collection::insertBatch`
build (collection.cpp lines 292-307 and 348-363): type INSERT, version 1,
the post-incremented counters, `vectorID = id`, `dimension` from the
config, the vector as payload, then the three `compute*` assignments. -/
def mkInsertEntry (dim id : Nat) (vec : List Nat) (lsn txid : Nat) : Entry :=
  finalizeEntry
    { type := opINSERT, version := 1, lsn := lsn, txid := txid,
      headerCRC := 0, payloadLength := 0, vectorID := id, dimension := dim,
      padding := 0, embedding := vec, payloadCRC := 0 }

/-- The DELETE WAL entry `Collection::remove` builds (collection.cpp lines
442-457): type DELETE, dimension 0, empty payload. -/
def mkDeleteEntry (id : Nat) (lsn txid : Nat) : Entry :=
  finalizeEntry
    { type := opDELETE, version := 1, lsn := lsn, txid := txid,
      headerCRC := 0, payloadLength := 0, vectorID := id, dimension := 0,
      padding := 0, embedding := [], payloadCRC := 0 }

/-- Embeds `Collection::insert` (collection.cpp lines 284-318): dimension gate,
build the WAL entry (post-incrementing both counters), log it (aborting
with the WAL's status on failure, counters left advanced), then apply to
the index; an index-level failure surfaces as `Internal`. -/
def Collection.insert (c : CollectionState) (walOk : Bool) (id : Nat)
    (vec : List Nat) : CollectionState × StatusCode :=
  if vec.length ≠ c.dimensions then (c, .dimensionMismatch)
  else
    let entry := mkInsertEntry c.dimensions id vec c.lsnCounter c.txidCounter
    let c1 := { c with lsnCounter := c.lsnCounter + 1,
                       txidCounter := c.txidCounter + 1 }
    match walStep c1 walOk entry with
    | .error st => (c1, st)
    | .ok c2 =>
      match c2.index.insert id vec with
      | (idx2, true) => ({ c2 with index := idx2 }, .ok)
      | (_, false) => (c2, .internal)

/-- Per-vector outcome inside a batch insert (`arrow::InsertResult`, status
abstracted to its code). -/
structure InsertResult where
  id : Nat
  status : StatusCode
deriving DecidableEq, Repr

/-- Embeds `arrow::BatchInsertResult`. -/
structure BatchInsertResult where
  results : List InsertResult
  successCount : Nat
  failureCount : Nat
deriving DecidableEq, Repr

/-- Phase 2 of `Collection::insertBatch` (collection.cpp lines 336-365):
walk the batch, marking dimension-invalid inputs with a `DimensionMismatch`
per-entry result (consuming no LSN/TXID) and building a WAL entry with the
post-incremented counters for each valid input. Returns the partial results
(`none` marks a slot phase 4 will fill), the WAL entries, the counters
after the walk and the failure count so far. -/
def batchPhase2 (dim : Nat) (lsn txid : Nat) :
    List (Nat × List Nat) →
    List (Option InsertResult) × List Entry × Nat × Nat × Nat
  | [] => ([], [], lsn, txid, 0)
  | (id, vec) :: rest =>
    if vec.length = dim then
      let e := mkInsertEntry dim id vec lsn txid
      let (rs, es, l, t, f) := batchPhase2 dim (lsn + 1) (txid + 1) rest
      (none :: rs, e :: es, l, t, f)
    else
      let (rs, es, l, t, f) := batchPhase2 dim lsn txid rest
      (some ⟨id, .dimensionMismatch⟩ :: rs, es, l, t, f + 1)

/-- Phase 4 of `Collection::insertBatch` (collection.cpp lines 376-390):
apply each dimension-valid input to the index (slots already marked in
phase 2 are kept as they are), counting successes and index-level
failures. The input pairs each batch element with its phase-2 slot. -/
def batchPhase4 (idx : HNSWIndex) :
    List ((Nat × List Nat) × Option InsertResult) →
    HNSWIndex × List InsertResult × Nat × Nat
  | [] => (idx, [], 0, 0)
  | ((id, vec), slot) :: rest =>
    match slot with
    | some r =>
      let (i2, res, s, f) := batchPhase4 idx rest
      (i2, r :: res, s, f)
    | none =>
      match idx.insert id vec with
      | (i1, true) =>
        let (i2, res, s, f) := batchPhase4 i1 rest
        (i2, ⟨id, .ok⟩ :: res, s + 1, f)
      | (_, false) =>
        let (i2, res, s, f) := batchPhase4 idx rest
        (i2, ⟨id, .internal⟩ :: res, s, f + 1)

/-- Embeds `Collection::insertBatch` (collection.cpp lines 320-393): phase 1/2
validate dimensions and build WAL entries; phase 3 appends all of them with
a single fsync (`logBatch`) — on failure both counters are rolled back by
`walEntries.size()` and the WAL error is returned; phase 4 applies the
valid inputs to the index with per-entry outcomes. -/
def Collection.insertBatch (c : CollectionState) (walOk : Bool)
    (batch : List (Nat × List Nat)) :
    CollectionState × Except StatusCode BatchInsertResult :=
  let (rs, walEntries, lsn2, txid2, fail2) :=
    batchPhase2 c.dimensions c.lsnCounter c.txidCounter batch
  let c2 := { c with lsnCounter := lsn2, txidCounter := txid2 }
  if c.hasWal = true ∧ walEntries ≠ [] then
    if walOk then
      let c3 := { c2 with wal := c2.wal ++ walEntries }
      let (idx2, res, s, f4) := batchPhase4 c3.index (batch.zip rs)
      ({ c3 with index := idx2 }, .ok ⟨res, s, fail2 + f4⟩)
    else
      ({ c2 with lsnCounter := lsn2 - walEntries.length,
                 txidCounter := txid2 - walEntries.length },
       .error .ioError)
  else
    let (idx2, res, s, f4) := batchPhase4 c2.index (batch.zip rs)
    ({ c2 with index := idx2 }, .ok ⟨res, s, fail2 + f4⟩)

/-- Embeds `Collection::search` (collection.cpp lines 399-402): a straight
delegation to the index search — no dimension validation at the collection
layer, so the index's exception propagates. -/
def Collection.search (c : CollectionState) (query : List Nat) (k ef : Nat)
    (knn : List (Int × Nat)) : Except SearchExn (List SearchResult) :=
  c.index.search query k ef knn

/-- Embeds `Collection::remove` (collection.cpp lines 441-469): build and log a
DELETE entry (post-incrementing both counters) before any existence check,
then `markDelete` in the index — returning its status on failure, before
the metadata erase — and finally erase the metadata entry. -/
def Collection.remove (c : CollectionState) (walOk : Bool) (id : Nat) :
    CollectionState × StatusCode :=
  let entry := mkDeleteEntry id c.lsnCounter c.txidCounter
  let c1 := { c with lsnCounter := c.lsnCounter + 1,
                     txidCounter := c.txidCounter + 1 }
  match walStep c1 walOk entry with
  | .error st => (c1, st)
  | .ok c2 =>
    match c2.index.markDelete id with
    | (idx2, .ok) =>
      ({ c2 with index := idx2, metadata := eraseAssoc c2.metadata id }, .ok)
    | (idx2, st) => ({ c2 with index := idx2 }, st)

/-- The loop of `Collection::Impl::replayWal` (collection.cpp lines
176-199), carrying the running `maxLsn`, `maxTxid` and `replayedCount`:
entries with `lsn ≤ fromLsn` are skipped; every other entry advances the
running maxima; INSERT entries are applied to the index (a failed apply
aborts with `Internal`); DELETE entries tombstone the id and erase its
metadata; other types fall to the `default` branch. At the end the
counters are set to the maxima and `recoveredFromWal` is set when at least
one entry was replayed (lines 201-203). The two shadowing updates of the
running maxima are inlined into each recursive call here. -/
def replayLoop (fromLsn : Nat) :
    List Entry → CollectionState → Nat → Nat → Nat →
    CollectionState × StatusCode
  | [], c, maxLsn, maxTxid, replayed =>
    ({ c with lsnCounter := maxLsn, txidCounter := maxTxid,
              recoveredFromWal := if replayed > 0 then true else c.recoveredFromWal },
     .ok)
  | e :: rest, c, maxLsn, maxTxid, replayed =>
    if e.lsn ≤ fromLsn then replayLoop fromLsn rest c maxLsn maxTxid replayed
    else
      if e.type = opINSERT then
        match c.index.insert e.vectorID e.embedding with
        | (idx2, true) =>
          replayLoop fromLsn rest { c with index := idx2 }
            (if maxLsn ≤ e.lsn then e.lsn + 1 else maxLsn)
            (if maxTxid ≤ e.txid then e.txid + 1 else maxTxid) (replayed + 1)
        | (_, false) => (c, .internal)
      else if e.type = opDELETE then
        replayLoop fromLsn rest
          { c with index := (c.index.markDelete e.vectorID).1,
                   metadata := eraseAssoc c.metadata e.vectorID }
          (if maxLsn ≤ e.lsn then e.lsn + 1 else maxLsn)
          (if maxTxid ≤ e.txid then e.txid + 1 else maxTxid) (replayed + 1)
      else
        replayLoop fromLsn rest c
          (if maxLsn ≤ e.lsn then e.lsn + 1 else maxLsn)
          (if maxTxid ≤ e.txid then e.txid + 1 else maxTxid) replayed

/-- Embeds `Collection::Impl::replayWal` applied to an already-parsed entry list
(the `readAll` I/O and its empty/missing-WAL early outs happen before the
loop this models). -/
def Collection.replayWal (c : CollectionState) (entries : List Entry)
    (fromLsn : Nat) : CollectionState × StatusCode :=
  replayLoop fromLsn entries c c.lsnCounter c.txidCounter 0

--------------------------------------------------------------------------
-- Sequences of mutating operations (for the LSN/TXID monotonicity claim)
--------------------------------------------------------------------------

/-- A mutating operation on a collection: `insert`, `insertBatch` or
`remove`. -/
inductive MutOp where
  | ins : Nat → List Nat → MutOp
  | insBatch : List (Nat × List Nat) → MutOp
  | rem : Nat → MutOp
deriving DecidableEq, Repr

/-- Outcome of one mutating call: whether it succeeded (returned an OK
status / a batch result rather than an error), and the LSNs and TXIDs it
assigned (the counter values stamped into the WAL entries it built:
`c.lsnCounter` for a single insert or remove, the consecutive block for the
dimension-valid part of a batch, nothing for a dimension-rejected
insert). -/
structure OpOutcome where
  success : Bool
  lsns : List Nat
  txids : List Nat
deriving DecidableEq, Repr

/-- Number of dimension-valid inputs of a batch. -/
def validCount (dim : Nat) (batch : List (Nat × List Nat)) : Nat :=
  (batch.filter fun p => p.2.length = dim).length

/-- Run one mutating operation (with its WAL-fsync oracle) and report its
outcome. -/
def runOp (c : CollectionState) (op : MutOp) (walOk : Bool) :
    CollectionState × OpOutcome :=
  match op with
  | .ins id vec =>
    let r := Collection.insert c walOk id vec
    (r.1,
     { success := r.2 = StatusCode.ok,
       lsns := if vec.length = c.dimensions then [c.lsnCounter] else [],
       txids := if vec.length = c.dimensions then [c.txidCounter] else [] })
  | .insBatch batch =>
    let r := Collection.insertBatch c walOk batch
    (r.1,
     { success := r.2.isOk,
       lsns := List.range' c.lsnCounter (validCount c.dimensions batch),
       txids := List.range' c.txidCounter (validCount c.dimensions batch) })
  | .rem id =>
    let r := Collection.remove c walOk id
    (r.1,
     { success := r.2 = StatusCode.ok,
       lsns := [c.lsnCounter],
       txids := [c.txidCounter] })

/-- Run a sequence of mutating operations, threading the collection state,
and collect the outcome of each. -/
def runSeq (c : CollectionState) : List (MutOp × Bool) → List OpOutcome
  | [] => []
  | (op, w) :: rest =>
    let r := runOp c op w
    r.2 :: runSeq r.1 rest

--------------------------------------------------------------------------
-- Concrete fixtures used by counterexamples and witnesses
--------------------------------------------------------------------------

/-- A dimension-3 L2 index with three stored vectors (ids 1, 2, 3). -/
def idxL2 : HNSWIndex :=
  { dim := 3, metric := DistanceMetric.L2,
    elems := [(1, [1, 1, 0]), (2, [3, 0, 0]), (3, [9, 9, 9])], deleted := [] }

/-- A dimension-3 Cosine index with one stored vector. -/
def idxCos : HNSWIndex :=
  { dim := 3, metric := DistanceMetric.Cosine,
    elems := [(1, [1, 0, 0])], deleted := [] }

/-- Shorthand for the replayed-entry test: an entry counts as replayed when
its type is INSERT or DELETE. -/
def isReplayedType (e : Entry) : Bool :=
  decide (e.type = opINSERT) || decide (e.type = opDELETE)

/-- Modelled from the spec's replay algorithm wording (spec section 4.4,
claim C4): the effect of one non-skipped replayed entry on the pair
(index, metadata) — INSERT applies to the index, DELETE tombstones the id
and erases its metadata, every other type leaves both unchanged. Used as
the specification side of the replay characterisation. -/
def replayApplySpec (st : HNSWIndex × List (Nat × Nat)) (e : Entry) :
    HNSWIndex × List (Nat × Nat) :=
  if e.type = opINSERT then ((st.1.insert e.vectorID e.embedding).1, st.2)
  else if e.type = opDELETE then
    ((st.1.markDelete e.vectorID).1, eraseAssoc st.2 e.vectorID)
  else st

/-- A concrete well-formed entry exercising the round trip. -/
def entryW : Entry :=
  finalizeEntry
    { type := opINSERT, version := 1, lsn := 7, txid := 7, headerCRC := 0,
      payloadLength := 0, vectorID := 42, dimension := 2,
      padding := 0, embedding := [1, 2], payloadCRC := 0 }

/-- A fresh dimension-2 collection with a configured WAL (counters start at
1 as in a fresh `Collection`). -/
def colW : CollectionState :=
  { dimensions := 2, metric := DistanceMetric.Cosine,
    index := { dim := 2, metric := DistanceMetric.Cosine, elems := [], deleted := [] },
    metadata := [(5, 0)], lsnCounter := 1, txidCounter := 1,
    hasWal := true, wal := [], lastPersistedLsn := 0, recoveredFromWal := false }

/-- A collection used to exercise the replay characterisation:
`lastPersistedLsn = 1`, counters at 2 (as `load` would set them). -/
def colR : CollectionState :=
  { dimensions := 2, metric := DistanceMetric.Cosine,
    index := { dim := 2, metric := DistanceMetric.Cosine, elems := [(7, [1, 2])],
               deleted := [] },
    metadata := [(7, 0)], lsnCounter := 2, txidCounter := 2,
    hasWal := true, wal := [], lastPersistedLsn := 1, recoveredFromWal := false }

--------------------------------------------------------------------------
-- Helper lemmas: little-endian encoding
--------------------------------------------------------------------------

theorem leBytes_length (w : Nat) : ∀ v, (leBytes w v).length = w := by
  induction w with
  | zero => intro v; rfl
  | succ w ih => intro v; simp [leBytes, ih]

theorem leVal_leBytes (w : Nat) : ∀ v, leVal (leBytes w v) = v % 256 ^ w := by
  induction w with
  | zero => intro v; simp [leBytes, leVal, Nat.mod_one]
  | succ w ih =>
    intro v
    rw [pow_succ', Nat.mod_mul]
    simp only [leBytes, leVal, ih]
    generalize v / 256 % 256 ^ w = t
    omega

theorem readLE_leBytes (w v : Nat) (rest : List Nat) (hv : v < 256 ^ w) :
    readLE w (leBytes w v ++ rest) = some (v, rest) := by
  unfold readLE
  rw [List.take_left' (leBytes_length w v), List.drop_left' (leBytes_length w v)]
  rw [if_pos (by simp [leBytes_length])]
  rw [leVal_leBytes, Nat.mod_eq_of_lt hv]

theorem readLE_leBytes_self (w v : Nat) (hv : v < 256 ^ w) :
    readLE w (leBytes w v) = some (v, []) := by
  have h := readLE_leBytes w v [] hv
  simpa using h

theorem readWords_embeddingBytes (emb : List Nat) (rest : List Nat)
    (hb : ∀ x ∈ emb, x < 2 ^ 32) :
    readWords 4 emb.length (embeddingBytes emb ++ rest) = some (emb, rest) := by
  induction emb with
  | nil => simp [embeddingBytes, readWords]
  | cons x xs ih =>
    have hx : x < 256 ^ 4 := by
      have hx2 := hb x (List.mem_cons_self x xs)
      norm_num at hx2 ⊢
      exact hx2
    have ih2 := ih fun y hy => hb y (List.mem_cons_of_mem x hy)
    simp only [embeddingBytes, List.map_cons, List.flatten_cons, List.append_assoc,
      List.length_cons, readWords] at ih2 ⊢
    rw [readLE_leBytes 4 x _ hx]
    simp only [ih2]

--------------------------------------------------------------------------
-- Helper lemmas: CRC-32 stays a 32-bit value
--------------------------------------------------------------------------

theorem crc32Bit_lt (c : Nat) (h : c < 2 ^ 32) : crc32Bit c < 2 ^ 32 := by
  unfold crc32Bit
  split
  · exact Nat.xor_lt_two_pow (by omega) (by norm_num [crc32Poly])
  · omega

theorem crc32Bit_iter_lt (n c : Nat) (h : c < 2 ^ 32) :
    crc32Bit^[n] c < 2 ^ 32 := by
  induction n generalizing c with
  | zero => exact h
  | succ n ih => rw [Function.iterate_succ_apply]; exact ih _ (crc32Bit_lt c h)

theorem crc32Byte_lt (c b : Nat) (h : c < 2 ^ 32) : crc32Byte c b < 2 ^ 32 := by
  unfold crc32Byte
  exact crc32Bit_iter_lt 8 _ (Nat.xor_lt_two_pow h (by have := Nat.mod_lt b (show 0 < 256 by norm_num); omega))

theorem crc32Update_lt (bs : List Nat) : ∀ c, c < 2 ^ 32 → crc32Update c bs < 2 ^ 32 := by
  induction bs with
  | nil => intro c h; exact h
  | cons b bs ih =>
    intro c h
    rw [crc32Update, List.foldl_cons]
    exact ih _ (crc32Byte_lt c b h)

theorem crc32_lt (bs : List Nat) : crc32 bs < 2 ^ 32 := by
  unfold crc32
  exact Nat.xor_lt_two_pow (crc32Update_lt bs _ (by norm_num)) (by norm_num)

--------------------------------------------------------------------------
-- C8: WriteEntry / ParseEntry round trip
--------------------------------------------------------------------------

/-- C8: for every well-formed WAL entry (per the spec's data-model
invariants: valid operation type, dimension equal to the embedding length
and within the hard bound, fields within their wire widths, payload length
and both CRC fields consistent), parsing the bytes `WriteEntry` produces
succeeds — in particular both CRC validations pass — and yields an entry
identical to the original, consuming the whole stream. -/
theorem writeEntry_parseEntry_roundtrip (e : Entry) (h : WellFormedEntry e) :
    ParseEntry (WriteEntry e) = .ok (e, []) := by
  obtain ⟨h1, h2, h3, h4, h5, h6, h7, h8, h9, h10, h11, h12, h13⟩ := h
  have p2 : (256 : Nat) ^ 2 = 2 ^ 16 := by norm_num
  have p4 : (256 : Nat) ^ 4 = 2 ^ 32 := by norm_num
  have p8 : (256 : Nat) ^ 8 = 2 ^ 64 := by norm_num
  have ht : e.type < 256 ^ 2 := by rw [p2]; norm_num [kMaxOperationType] at h2 ⊢; omega
  have hver : e.version < 256 ^ 2 := by rw [p2]; exact h3
  have hlsn : e.lsn < 256 ^ 8 := by rw [p8]; exact h4
  have htx : e.txid < 256 ^ 8 := by rw [p8]; exact h5
  have hvid : e.vectorID < 256 ^ 8 := by rw [p8]; exact h6
  have hpad : e.padding < 256 ^ 1 := by norm_num at h7 ⊢; omega
  have hdim : e.dimension < 256 ^ 4 := by
    rw [p4]; norm_num [kMaxDimension] at h9 ⊢; omega
  have hhc : e.computeHeaderCrc < 256 ^ 4 := by rw [p4]; exact crc32_lt _
  have hpc : e.computePayloadCrc < 256 ^ 4 := by rw [p4]; exact crc32_lt _
  have hpl : e.computePayloadLength < 256 ^ 4 := by
    rw [p4]
    unfold Entry.computePayloadLength
    norm_num [kMaxDimension] at h9 ⊢
    omega
  have htyOk : ¬(e.type < kMinOperationType ∨ kMaxOperationType < e.type) := by
    push_neg
    exact ⟨h1, h2⟩
  have hdimOk : ¬(kMaxDimension < e.dimension) := by omega
  unfold ParseEntry WriteEntry
  simp only [List.append_assoc]
  rw [readLE_leBytes 2 e.type _ ht]
  simp only
  rw [readLE_leBytes 2 e.version _ hver]
  simp only
  rw [readLE_leBytes 8 e.lsn _ hlsn]
  simp only
  rw [readLE_leBytes 8 e.txid _ htx]
  simp only
  rw [readLE_leBytes 4 e.computeHeaderCrc _ hhc]
  simp only
  rw [readLE_leBytes 4 e.computePayloadLength _ hpl]
  simp only
  rw [readLE_leBytes 8 e.vectorID _ hvid]
  simp only
  rw [readLE_leBytes 4 e.dimension _ hdim]
  simp only
  rw [readLE_leBytes 1 e.padding _ hpad]
  simp only
  rw [if_neg htyOk, if_neg hdimOk]
  rw [h8, readWords_embeddingBytes e.embedding _ h10]
  simp only
  rw [readLE_leBytes_self 4 e.computePayloadCrc hpc]
  simp only
  have hsameHeader :
      Entry.computeHeaderCrc
        { type := e.type, version := e.version, lsn := e.lsn, txid := e.txid,
          headerCRC := e.computeHeaderCrc, payloadLength := e.computePayloadLength,
          vectorID := e.vectorID, dimension := e.embedding.length, padding := e.padding,
          embedding := e.embedding, payloadCRC := e.computePayloadCrc } =
        e.computeHeaderCrc := rfl
  have hsamePayload :
      Entry.computePayloadCrc
        { type := e.type, version := e.version, lsn := e.lsn, txid := e.txid,
          headerCRC := e.computeHeaderCrc, payloadLength := e.computePayloadLength,
          vectorID := e.vectorID, dimension := e.embedding.length, padding := e.padding,
          embedding := e.embedding, payloadCRC := e.computePayloadCrc } =
        e.computePayloadCrc := rfl
  rw [if_neg (by rw [hsameHeader]; exact fun hcon => hcon rfl)]
  rw [if_neg (by rw [hsamePayload]; exact fun hcon => hcon rfl)]
  rw [if_neg (by exact fun hcon => hcon rfl)]
  rw [← h11, ← h12, ← h13, ← h8]

set_option maxRecDepth 100000 in
/-- C8 witness: the round trip evaluated at the concrete entry. -/
theorem writeEntry_parseEntry_roundtrip_witness :
    ParseEntry (WriteEntry entryW) = .ok (entryW, []) :=
  writeEntry_parseEntry_roundtrip entryW (by unfold WellFormedEntry; decide)

--------------------------------------------------------------------------
-- C1 and C2: the L2 score sign / ordering bug
--------------------------------------------------------------------------

/-- C1: evaluation of the code at a failing input. Under the L2 metric the
returned scores are STRICTLY INCREASING, not non-increasing. The `knn`
argument is the pop sequence of the `searchKnn` max-heap for the stored
vectors `(1,1,0)` (id 1) and `(3,0,0)` (id 2) against the query `(1,1,1)`:
squared distances 6 (id 2) then 1 (id 1), popped worst-first. The wrapper
multiplies L2 distances by `distToScoreConverter = 1` and reverses, so the
result list is `[{id 1, score 1}, {id 2, score 6}]` — at most `k = 2`
results, but with ascending scores, contradicting the claimed descending
order (the spec's invariant 7 and the "sorted by score descending" doc
comment on `Collection::search`). -/
theorem l2_search_scores_ascend :
    HNSWIndex.search idxL2 [1, 1, 1] 2 200
        [(l2SpaceDist [1, 1, 1] [3, 0, 0], 2), (l2SpaceDist [1, 1, 1] [1, 1, 0], 1)] =
      .ok [{ id := 1, score := 1 }, { id := 2, score := 6 }] ∧
    ¬ scoresNonIncreasing [{ id := 1, score := 1 }, { id := 2, score := 6 }] := by
  refine ⟨rfl, ?_⟩
  simp [scoresNonIncreasing, List.chain'_cons, List.chain'_singleton]

/-- C2: evaluation of the code at a failing input. For an L2 collection the
score returned for the stored vector `(1,1,0)` (id 1) against the query
`(1,1,1)` is `+‖q−v‖² = 1` (the wrapper multiplies the library's positive
squared distance by `distToScoreConverter = 1`, hnsw_index.cpp line 72),
whereas the claimed score is the NEGATED squared distance `−‖q−v‖² = −1`. -/
theorem l2_search_score_not_negated :
    HNSWIndex.search idxL2 [1, 1, 1] 1 200
        [(l2SpaceDist [1, 1, 1] [1, 1, 0], 1)] =
      .ok [{ id := 1, score := 1 }] ∧
    specL2Score [1, 1, 1] [1, 1, 0] = -1 ∧
    (1 : Int) ≠ -1 := by
  refine ⟨rfl, rfl, by decide⟩

--------------------------------------------------------------------------
-- C3: the dimension gate
--------------------------------------------------------------------------

/-- C3 counterexample: a search whose query length differs from the
collection's dimension does NOT return a `DimensionMismatch` status —
`Collection::search` performs no validation and the index throws
`std::invalid_argument`, an exception escape (the repository's own test
`HNSWIndexTest.DimensionMismatch` expects exactly this throw). Evaluated on
a dimension-2 collection with a length-1 query. -/
theorem search_dim_mismatch_is_exception :
    Collection.search colW [9] 1 200 [] = .error .invalidArgument := rfl

/-- C3 as amended: an `insert` whose vector length differs from the
declared dimension returns `DimensionMismatch` leaving the collection state
(index, metadata, WAL, LSN and TXID counters) unchanged, while a `search`
whose query length differs from the index dimension escapes with the
`std::invalid_argument` exception (and, being const, touches no state)
rather than returning a status. -/
theorem dimension_gate_amended (c : CollectionState) (walOk : Bool) (id : Nat)
    (vec : List Nat) (hv : vec.length ≠ c.dimensions)
    (q : List Nat) (hq : q.length ≠ c.index.dim) (k ef : Nat)
    (knn : List (Int × Nat)) :
    Collection.insert c walOk id vec = (c, .dimensionMismatch) ∧
    Collection.search c q k ef knn = .error .invalidArgument := by
  constructor
  · simp [Collection.insert, hv]
  · simp [Collection.search, HNSWIndex.search, hq]

/-- C3 witness: the amended dimension gate evaluated on a concrete
dimension-2 collection with a length-1 vector and query. -/
theorem dimension_gate_amended_witness :
    Collection.insert colW false 1 [9] = (colW, .dimensionMismatch) ∧
    Collection.search colW [9] 1 200 [] = .error .invalidArgument :=
  dimension_gate_amended colW false 1 [9] (by decide) [9] (by decide) 1 200 []

--------------------------------------------------------------------------
-- C9: single insert does not roll back counters on WAL failure
--------------------------------------------------------------------------

/-- C9: when a dimension-valid single `insert` fails at the WAL append, the
WAL error is returned before any index, metadata or durable-log mutation,
but both counters remain advanced by one — the single-insert error path
performs no rollback (contrast `insertBatch`, collection.cpp lines
367-374), so the LSN and TXID are permanently skipped. -/
theorem insert_wal_failure_keeps_counters (c : CollectionState) (id : Nat)
    (vec : List Nat) (hv : vec.length = c.dimensions) (hw : c.hasWal = true) :
    Collection.insert c false id vec =
      ({ c with lsnCounter := c.lsnCounter + 1, txidCounter := c.txidCounter + 1 },
       .ioError) := by
  simp [Collection.insert, walStep, hv, hw]

/-- C9 witness: the failed insert evaluated on a concrete collection. -/
theorem insert_wal_failure_keeps_counters_witness :
    Collection.insert colW false 1 [8, 9] =
      ({ colW with lsnCounter := 2, txidCounter := 2 }, .ioError) :=
  insert_wal_failure_keeps_counters colW 1 [8, 9] (by decide) (by decide)

--------------------------------------------------------------------------
-- C10: remove logs the DELETE entry before the existence check
--------------------------------------------------------------------------

/-- C10: `remove` on an id that was never inserted still consumes one LSN
and one TXID and appends the DELETE entry to the configured WAL, and only
then returns the index's `NotFound` from `markDelete`, without erasing any
metadata entry (the metadata erase sits after the status check). -/
theorem remove_unknown_id_still_logs (c : CollectionState) (id : Nat)
    (hw : c.hasWal = true)
    (hid : id ∉ c.index.elems.map (·.1)) :
    Collection.remove c true id =
      ({ c with lsnCounter := c.lsnCounter + 1, txidCounter := c.txidCounter + 1,
                wal := c.wal ++ [mkDeleteEntry id c.lsnCounter c.txidCounter] },
       .notFound) := by
  simp [Collection.remove, walStep, HNSWIndex.markDelete, hw, hid]

/-- C10 witness: removing a never-inserted id on a concrete collection. -/
theorem remove_unknown_id_still_logs_witness :
    Collection.remove colW true 3 =
      ({ colW with lsnCounter := 2, txidCounter := 2,
                   wal := [mkDeleteEntry 3 1 1] },
       .notFound) :=
  remove_unknown_id_still_logs colW 3 (by decide) (by decide)

--------------------------------------------------------------------------
-- Helper lemmas: batch insert phases
--------------------------------------------------------------------------

theorem validCount_cons (dim id : Nat) (vec : List Nat)
    (rest : List (Nat × List Nat)) :
    validCount dim ((id, vec) :: rest) =
      (if vec.length = dim then 1 else 0) + validCount dim rest := by
  by_cases h : vec.length = dim <;>
    simp [validCount, List.filter_cons, h, Nat.add_comm]

theorem batchPhase2_spec (dim : Nat) (batch : List (Nat × List Nat)) :
    ∀ lsn txid,
      (batchPhase2 dim lsn txid batch).1 =
        batch.map (fun p => if p.2.length = dim then none
                            else some ⟨p.1, .dimensionMismatch⟩) ∧
      (batchPhase2 dim lsn txid batch).2.1.length = validCount dim batch ∧
      (batchPhase2 dim lsn txid batch).2.1.map (·.lsn) =
        List.range' lsn (validCount dim batch) ∧
      (batchPhase2 dim lsn txid batch).2.1.map (·.txid) =
        List.range' txid (validCount dim batch) ∧
      (batchPhase2 dim lsn txid batch).2.2.1 = lsn + validCount dim batch ∧
      (batchPhase2 dim lsn txid batch).2.2.2.1 = txid + validCount dim batch := by
  induction batch with
  | nil => intro lsn txid; simp [batchPhase2, validCount]
  | cons p rest ih =>
    intro lsn txid
    obtain ⟨id, vec⟩ := p
    by_cases h : vec.length = dim
    · rcases hrec : batchPhase2 dim (lsn + 1) (txid + 1) rest with ⟨rs, es, l, t, f⟩
      have ihh := ih (lsn + 1) (txid + 1)
      rw [hrec] at ihh
      dsimp only at ihh
      obtain ⟨e1, e2, e3, e4, e5, e6⟩ := ihh
      refine ⟨?_, ?_, ?_, ?_, ?_, ?_⟩
      · simp [batchPhase2, hrec, h, e1]
      · simp [batchPhase2, hrec, h, e2, validCount_cons] <;> omega
      · simp only [batchPhase2, hrec, h, if_true, validCount_cons, List.map_cons,
          mkInsertEntry, finalizeEntry, e3, Nat.add_comm 1 (validCount dim rest),
          List.range'_succ]
      · simp only [batchPhase2, hrec, h, if_true, validCount_cons, List.map_cons,
          mkInsertEntry, finalizeEntry, e4, Nat.add_comm 1 (validCount dim rest),
          List.range'_succ]
      · simp [batchPhase2, hrec, h, e5, validCount_cons] <;> omega
      · simp [batchPhase2, hrec, h, e6, validCount_cons] <;> omega
    · rcases hrec : batchPhase2 dim lsn txid rest with ⟨rs, es, l, t, f⟩
      have ihh := ih lsn txid
      rw [hrec] at ihh
      dsimp only at ihh
      obtain ⟨e1, e2, e3, e4, e5, e6⟩ := ihh
      refine ⟨?_, ?_, ?_, ?_, ?_, ?_⟩ <;>
        simp [batchPhase2, hrec, h, e1, e2, e3, e4, e5, e6, validCount_cons]

--------------------------------------------------------------------------
-- C6: insertBatch rolls counters back on WAL failure
--------------------------------------------------------------------------

/-- C6: when `insertBatch` has built WAL entries (at least one input passed
dimension validation) and the batch WAL append fails, it returns the WAL
error and decrements `lsnCounter` and `txidCounter` by exactly the number
of entries built, so the resulting state is the pre-call state — in
particular both counters are restored and no index insertion happened. -/
theorem insertBatch_wal_failure_rolls_back (c : CollectionState)
    (batch : List (Nat × List Nat)) (hw : c.hasWal = true)
    (hv : 0 < validCount c.dimensions batch) :
    Collection.insertBatch c false batch = (c, .error .ioError) := by
  have hs := batchPhase2_spec c.dimensions batch c.lsnCounter c.txidCounter
  rcases hrec : batchPhase2 c.dimensions c.lsnCounter c.txidCounter batch with
    ⟨rs, es, l, t, f⟩
  rw [hrec] at hs
  dsimp only at hs
  obtain ⟨e1, e2, e3, e4, e5, e6⟩ := hs
  have hne : es ≠ [] := by
    intro hcon
    rw [hcon] at e2
    simp at e2
    omega
  unfold Collection.insertBatch
  rw [hrec]
  dsimp only
  rw [if_pos ⟨hw, hne⟩]
  simp [e2, e5, e6]

/-- C6 witness: a failed one-element batch on a concrete collection. -/
theorem insertBatch_wal_failure_rolls_back_witness :
    Collection.insertBatch colW false [(1, [8, 9])] = (colW, .error .ioError) :=
  insertBatch_wal_failure_rolls_back colW [(1, [8, 9])] (by decide)
    (by unfold validCount; decide)

theorem batchPhase2_failCount (dim : Nat) (batch : List (Nat × List Nat)) :
    ∀ lsn txid,
      (batchPhase2 dim lsn txid batch).2.2.2.2 + validCount dim batch =
        batch.length := by
  induction batch with
  | nil => intro lsn txid; simp [batchPhase2, validCount]
  | cons p rest ih =>
    intro lsn txid
    obtain ⟨id, vec⟩ := p
    by_cases h : vec.length = dim
    · rcases hrec : batchPhase2 dim (lsn + 1) (txid + 1) rest with ⟨rs, es, l, t, f⟩
      have ihh := ih (lsn + 1) (txid + 1)
      rw [hrec] at ihh
      dsimp only at ihh
      simp [batchPhase2, h, hrec, validCount_cons]
      omega
    · rcases hrec : batchPhase2 dim lsn txid rest with ⟨rs, es, l, t, f⟩
      have ihh := ih lsn txid
      rw [hrec] at ihh
      dsimp only at ihh
      simp [batchPhase2, h, hrec, validCount_cons]
      omega

theorem zip_self_map {α β : Type} (l : List α) (g : α → β) :
    l.zip (l.map g) = l.map fun a => (a, g a) := by
  induction l with
  | nil => rfl
  | cons x xs ih => simp [ih]

theorem batchPhase4_spec (dim : Nat) (batch : List (Nat × List Nat)) :
    ∀ idx : HNSWIndex, idx.dim = dim →
      (batchPhase4 idx (batch.map fun p =>
          (p, if p.2.length = dim then none
              else some ⟨p.1, StatusCode.dimensionMismatch⟩))).2.1 =
        batch.map (fun p =>
          if p.2.length = dim then ⟨p.1, StatusCode.ok⟩
          else ⟨p.1, StatusCode.dimensionMismatch⟩) ∧
      (batchPhase4 idx (batch.map fun p =>
          (p, if p.2.length = dim then none
              else some ⟨p.1, StatusCode.dimensionMismatch⟩))).2.2.1 =
        validCount dim batch ∧
      (batchPhase4 idx (batch.map fun p =>
          (p, if p.2.length = dim then none
              else some ⟨p.1, StatusCode.dimensionMismatch⟩))).2.2.2 = 0 := by
  induction batch with
  | nil => intro idx hdim; simp [batchPhase4, validCount]
  | cons p rest ih =>
    intro idx hdim
    obtain ⟨id, vec⟩ := p
    by_cases h : vec.length = dim
    · have hins : idx.insert id vec =
          ({ idx with elems := updateAssoc idx.elems id vec }, true) := by
        unfold HNSWIndex.insert
        rw [if_neg (by rw [hdim, h]; exact fun hcon => hcon rfl)]
      rcases hrec : batchPhase4 { idx with elems := updateAssoc idx.elems id vec }
          (rest.map fun p =>
            (p, if p.2.length = dim then none
                else some ⟨p.1, StatusCode.dimensionMismatch⟩)) with ⟨i2, res, s, f⟩
      have ihh := ih { idx with elems := updateAssoc idx.elems id vec } hdim
      rw [hrec] at ihh
      dsimp only at ihh
      obtain ⟨g1, g2, g3⟩ := ihh
      simp [batchPhase4, h, hins, hrec, g1, g2, g3, validCount_cons]
      omega
    · rcases hrec : batchPhase4 idx
          (rest.map fun p =>
            (p, if p.2.length = dim then none
                else some ⟨p.1, StatusCode.dimensionMismatch⟩)) with ⟨i2, res, s, f⟩
      have ihh := ih idx hdim
      rw [hrec] at ihh
      dsimp only at ihh
      obtain ⟨g1, g2, g3⟩ := ihh
      simp [batchPhase4, h, hrec, g1, g2, g3, validCount_cons]

--------------------------------------------------------------------------
-- C7: insertBatch per-entry reporting and consecutive LSNs
--------------------------------------------------------------------------

/-- C7: for a batch whose WAL append succeeds, dimension-invalid inputs are
reported per-entry as `DimensionMismatch` and consume no LSN/TXID, the
valid entries are appended to the WAL carrying consecutive LSNs and
consecutive TXIDs (starting at the pre-call counters), the result has one
entry per input in order, and `successCount + failureCount` equals the
batch size. -/
theorem insertBatch_ok_consecutive (c : CollectionState)
    (batch : List (Nat × List Nat)) (hw : c.hasWal = true)
    (hd : c.index.dim = c.dimensions) :
    ∃ br : BatchInsertResult,
      (Collection.insertBatch c true batch).2 = .ok br ∧
      br.results = batch.map (fun p =>
        if p.2.length = c.dimensions then ⟨p.1, StatusCode.ok⟩
        else ⟨p.1, StatusCode.dimensionMismatch⟩) ∧
      br.successCount = validCount c.dimensions batch ∧
      br.successCount + br.failureCount = batch.length ∧
      (Collection.insertBatch c true batch).1.lsnCounter =
        c.lsnCounter + validCount c.dimensions batch ∧
      (Collection.insertBatch c true batch).1.txidCounter =
        c.txidCounter + validCount c.dimensions batch ∧
      ∃ new : List Entry,
        (Collection.insertBatch c true batch).1.wal = c.wal ++ new ∧
        new.map (·.lsn) = List.range' c.lsnCounter (validCount c.dimensions batch) ∧
        new.map (·.txid) = List.range' c.txidCounter (validCount c.dimensions batch) := by
  have hs := batchPhase2_spec c.dimensions batch c.lsnCounter c.txidCounter
  have hfc := batchPhase2_failCount c.dimensions batch c.lsnCounter c.txidCounter
  rcases hrec : batchPhase2 c.dimensions c.lsnCounter c.txidCounter batch with
    ⟨rs, es, l, t, f2⟩
  rw [hrec] at hs hfc
  dsimp only at hs hfc
  obtain ⟨e1, e2, e3, e4, e5, e6⟩ := hs
  have hzip : batch.zip rs = batch.map (fun p =>
      (p, if p.2.length = c.dimensions then none
          else some ⟨p.1, StatusCode.dimensionMismatch⟩)) := by
    rw [e1, zip_self_map]
  have h4 := batchPhase4_spec c.dimensions batch c.index hd
  rcases h4rec : batchPhase4 c.index (batch.map fun p =>
      (p, if p.2.length = c.dimensions then none
          else some ⟨p.1, StatusCode.dimensionMismatch⟩)) with ⟨i2, res, s, f4⟩
  rw [h4rec] at h4
  dsimp only at h4
  obtain ⟨g1, g2, g3⟩ := h4
  by_cases hne : es = []
  · have hvc : validCount c.dimensions batch = 0 := by
      rw [← e2, hne]
      rfl
    have hval : Collection.insertBatch c true batch =
        ({ c with lsnCounter := l, txidCounter := t, index := i2 },
         .ok ⟨res, s, f2 + f4⟩) := by
      unfold Collection.insertBatch
      rw [hrec]
      dsimp only
      rw [if_neg (by simp [hne])]
      rw [hzip, h4rec]
    refine ⟨⟨res, s, f2 + f4⟩, by rw [hval], g1, g2, by dsimp only; omega, ?_, ?_, [],
      ?_, ?_, ?_⟩
    · rw [hval]
      exact e5
    · rw [hval]
      exact e6
    · rw [hval]
      simp
    · simp [hvc]
    · simp [hvc]
  · have hval : Collection.insertBatch c true batch =
        ({ c with lsnCounter := l, txidCounter := t, wal := c.wal ++ es, index := i2 },
         .ok ⟨res, s, f2 + f4⟩) := by
      unfold Collection.insertBatch
      rw [hrec]
      dsimp only
      rw [if_pos ⟨hw, hne⟩]
      rw [hzip, h4rec]
      rfl
    refine ⟨⟨res, s, f2 + f4⟩, by rw [hval], g1, g2, by dsimp only; omega, ?_, ?_, es,
      ?_, e3, e4⟩
    · rw [hval]
      exact e5
    · rw [hval]
      exact e6
    · rw [hval]

/-- C7 witness: a concrete two-element batch (one valid, one invalid) on a
concrete collection. -/
theorem insertBatch_ok_consecutive_witness :
    ∃ br : BatchInsertResult,
      (Collection.insertBatch colW true [(1, [8, 9]), (2, [8])]).2 = .ok br ∧
      br.results = [(1, [8, 9]), (2, [8])].map (fun p =>
        if p.2.length = colW.dimensions then ⟨p.1, StatusCode.ok⟩
        else ⟨p.1, StatusCode.dimensionMismatch⟩) ∧
      br.successCount = validCount colW.dimensions [(1, [8, 9]), (2, [8])] ∧
      br.successCount + br.failureCount = 2 ∧
      (Collection.insertBatch colW true [(1, [8, 9]), (2, [8])]).1.lsnCounter =
        colW.lsnCounter + validCount colW.dimensions [(1, [8, 9]), (2, [8])] ∧
      (Collection.insertBatch colW true [(1, [8, 9]), (2, [8])]).1.txidCounter =
        colW.txidCounter + validCount colW.dimensions [(1, [8, 9]), (2, [8])] ∧
      ∃ new : List Entry,
        (Collection.insertBatch colW true [(1, [8, 9]), (2, [8])]).1.wal =
          colW.wal ++ new ∧
        new.map (·.lsn) =
          List.range' colW.lsnCounter (validCount colW.dimensions [(1, [8, 9]), (2, [8])]) ∧
        new.map (·.txid) =
          List.range' colW.txidCounter (validCount colW.dimensions [(1, [8, 9]), (2, [8])]) :=
  insertBatch_ok_consecutive colW [(1, [8, 9]), (2, [8])] (by decide) (by decide)

--------------------------------------------------------------------------
-- Helper lemmas: WAL replay
--------------------------------------------------------------------------

theorem insert_preserves_dim (idx : HNSWIndex) (id : Nat) (vec : List Nat) :
    (idx.insert id vec).1.dim = idx.dim := by
  unfold HNSWIndex.insert
  split <;> rfl

theorem markDelete_preserves_dim (idx : HNSWIndex) (id : Nat) :
    (idx.markDelete id).1.dim = idx.dim := by
  unfold HNSWIndex.markDelete
  split <;> rfl

theorem maxStep_eq (m l : Nat) : (if m ≤ l then l + 1 else m) = max m (l + 1) := by
  split <;> omega

theorem replayApplySpec_ins (st : HNSWIndex × List (Nat × Nat)) (e : Entry)
    (h : e.type = opINSERT) :
    replayApplySpec st e = ((st.1.insert e.vectorID e.embedding).1, st.2) := by
  simp [replayApplySpec, h]

theorem replayApplySpec_del (st : HNSWIndex × List (Nat × Nat)) (e : Entry)
    (h : e.type = opDELETE) :
    replayApplySpec st e =
      ((st.1.markDelete e.vectorID).1, eraseAssoc st.2 e.vectorID) := by
  simp [replayApplySpec, h, opINSERT, opDELETE]

theorem replayApplySpec_other (st : HNSWIndex × List (Nat × Nat)) (e : Entry)
    (h1 : ¬e.type = opINSERT) (h2 : ¬e.type = opDELETE) :
    replayApplySpec st e = st := by
  simp [replayApplySpec, h1, h2]

theorem replayLoop_ok (fromLsn : Nat) (entries : List Entry) :
    ∀ (c : CollectionState) (maxLsn maxTxid replayed : Nat),
      (∀ e ∈ entries, fromLsn < e.lsn → e.type = opINSERT →
          e.embedding.length = c.index.dim) →
      replayLoop fromLsn entries c maxLsn maxTxid replayed =
        ({ c with
           index := ((entries.filter fun e => fromLsn < e.lsn).foldl
             replayApplySpec (c.index, c.metadata)).1,
           metadata := ((entries.filter fun e => fromLsn < e.lsn).foldl
             replayApplySpec (c.index, c.metadata)).2,
           lsnCounter := (entries.filter fun e => fromLsn < e.lsn).foldl
             (fun m e => max m (e.lsn + 1)) maxLsn,
           txidCounter := (entries.filter fun e => fromLsn < e.lsn).foldl
             (fun m e => max m (e.txid + 1)) maxTxid,
           recoveredFromWal :=
             if 0 < replayed +
                 ((entries.filter fun e => fromLsn < e.lsn).countP isReplayedType)
             then true else c.recoveredFromWal },
         .ok) := by
  induction entries with
  | nil =>
    intro c maxLsn maxTxid replayed _
    simp [replayLoop, List.filter_nil]
  | cons e rest ih =>
    intro c maxLsn maxTxid replayed hgood
    have hgoodRest : ∀ x ∈ rest, fromLsn < x.lsn → x.type = opINSERT →
        x.embedding.length = c.index.dim :=
      fun x hx => hgood x (List.mem_cons_of_mem e hx)
    by_cases hskip : e.lsn ≤ fromLsn
    · have hfilter : (e :: rest).filter (fun x => decide (fromLsn < x.lsn)) =
          rest.filter (fun x => decide (fromLsn < x.lsn)) := by
        simp [List.filter_cons, Nat.not_lt.mpr hskip]
      rw [replayLoop, if_pos hskip, hfilter]
      exact ih c maxLsn maxTxid replayed hgoodRest
    · have hq : fromLsn < e.lsn := Nat.not_le.mp hskip
      have hfilter : (e :: rest).filter (fun x => decide (fromLsn < x.lsn)) =
          e :: rest.filter (fun x => decide (fromLsn < x.lsn)) := by
        simp [List.filter_cons, hq]
      rw [replayLoop, if_neg hskip, hfilter]
      by_cases hins : e.type = opINSERT
      · have hlen : e.embedding.length = c.index.dim :=
          hgood e (List.mem_cons_self e rest) hq hins
        have hinsOk : c.index.insert e.vectorID e.embedding =
            ({ dim := c.index.dim, metric := c.index.metric,
               elems := updateAssoc c.index.elems e.vectorID e.embedding,
               deleted := c.index.deleted },
             true) := by
          unfold HNSWIndex.insert
          rw [if_neg (by rw [hlen]; exact fun hcon => hcon rfl)]
        rw [if_pos hins, hinsOk]
        have ihh := ih
          { c with index :=
              { dim := c.index.dim, metric := c.index.metric,
                elems := updateAssoc c.index.elems e.vectorID e.embedding,
                deleted := c.index.deleted } }
          (if maxLsn ≤ e.lsn then e.lsn + 1 else maxLsn)
          (if maxTxid ≤ e.txid then e.txid + 1 else maxTxid)
          (replayed + 1) (fun x hx hq2 ht => hgoodRest x hx hq2 ht)
        dsimp only
        rw [ihh]
        simp only [List.foldl_cons, List.countP_cons,
          replayApplySpec_ins (c.index, c.metadata) e hins, hinsOk, maxStep_eq]
        have hcnt : isReplayedType e = true := by
          simp [isReplayedType, hins]
        rw [hcnt]
        simp [Nat.add_comm, Nat.add_left_comm, Nat.add_assoc]
      · by_cases hdel : e.type = opDELETE
        · rw [if_neg hins, if_pos hdel]
          have ihh := ih
            { c with index := (c.index.markDelete e.vectorID).1,
                     metadata := eraseAssoc c.metadata e.vectorID }
            (if maxLsn ≤ e.lsn then e.lsn + 1 else maxLsn)
            (if maxTxid ≤ e.txid then e.txid + 1 else maxTxid)
            (replayed + 1) (fun x hx hq2 ht => by
              simp only [markDelete_preserves_dim]
              exact hgoodRest x hx hq2 ht)
          rw [ihh]
          simp only [List.foldl_cons, List.countP_cons,
            replayApplySpec_del (c.index, c.metadata) e hdel, maxStep_eq]
          have hcnt : isReplayedType e = true := by
            simp [isReplayedType, hdel]
          rw [hcnt]
          simp [Nat.add_comm, Nat.add_left_comm, Nat.add_assoc]
        · rw [if_neg hins, if_neg hdel]
          have ihh := ih c
            (if maxLsn ≤ e.lsn then e.lsn + 1 else maxLsn)
            (if maxTxid ≤ e.txid then e.txid + 1 else maxTxid)
            replayed hgoodRest
          rw [ihh]
          simp only [List.foldl_cons, List.countP_cons,
            replayApplySpec_other (c.index, c.metadata) e hins hdel, maxStep_eq]
          have hcnt : isReplayedType e = false := by
            simp [isReplayedType, hins, hdel]
          rw [hcnt]
          simp



theorem replayLoop_fail (fromLsn : Nat) (entries : List Entry) :
    ∀ (c : CollectionState) (maxLsn maxTxid replayed : Nat),
      (∃ e ∈ entries, fromLsn < e.lsn ∧ e.type = opINSERT ∧
          e.embedding.length ≠ c.index.dim) →
      (replayLoop fromLsn entries c maxLsn maxTxid replayed).2 = .internal := by
  induction entries with
  | nil =>
    intro c _ _ _ h
    rcases h with ⟨x, hx, _⟩
    exact absurd hx (List.not_mem_nil x)
  | cons e rest ih =>
    intro c maxLsn maxTxid replayed h
    rcases h with ⟨x, hx, hxq, hxins, hxbad⟩
    by_cases hskip : e.lsn ≤ fromLsn
    · rw [replayLoop, if_pos hskip]
      apply ih
      rcases List.mem_cons.mp hx with hxe | hxr
      · exfalso
        subst hxe
        omega
      · exact ⟨x, hxr, hxq, hxins, hxbad⟩
    · rw [replayLoop, if_neg hskip]
      by_cases hins : e.type = opINSERT
      · by_cases hlen : e.embedding.length = c.index.dim
        · have hinsOk : c.index.insert e.vectorID e.embedding =
              ({ dim := c.index.dim, metric := c.index.metric,
                 elems := updateAssoc c.index.elems e.vectorID e.embedding,
                 deleted := c.index.deleted },
               true) := by
            unfold HNSWIndex.insert
            rw [if_neg (by rw [hlen]; exact fun hcon => hcon rfl)]
          rw [if_pos hins, hinsOk]
          apply ih
          rcases List.mem_cons.mp hx with hxe | hxr
          · exfalso
            subst hxe
            exact hxbad hlen
          · exact ⟨x, hxr, hxq, hxins, hxbad⟩
        · have hinsBad : c.index.insert e.vectorID e.embedding = (c.index, false) := by
            unfold HNSWIndex.insert
            rw [if_pos hlen]
          rw [if_pos hins, hinsBad]
      · by_cases hdel : e.type = opDELETE
        · rw [if_neg hins, if_pos hdel]
          apply ih
          rcases List.mem_cons.mp hx with hxe | hxr
          · exfalso
            subst hxe
            exact hins hxins
          · refine ⟨x, hxr, hxq, hxins, ?_⟩
            show x.embedding.length ≠ (c.index.markDelete e.vectorID).1.dim
            rw [markDelete_preserves_dim]
            exact hxbad
        · rw [if_neg hins, if_neg hdel]
          apply ih
          rcases List.mem_cons.mp hx with hxe | hxr
          · exfalso
            subst hxe
            exact hins hxins
          · exact ⟨x, hxr, hxq, hxins, hxbad⟩

--------------------------------------------------------------------------
-- C4: the replay algorithm
--------------------------------------------------------------------------

/-- C4: characterisation of `Collection::Impl::replayWal` over the parsed
entry list. When every non-skipped INSERT matches the index dimension
(the success case): replay returns OK; entries with
`lsn ≤ lastPersistedLsn` are skipped and the remaining ones are applied in
order to the index and metadata exactly as `replayApplySpec` describes
(INSERT applied to the index, DELETE tombstoned and metadata erased, other
types ignored) without touching the WAL (no re-logging); both counters end
one past the largest lsn/txid of a non-skipped entry — at least their
initial values (`lastPersistedLsn+1` / `lastPersistedTxid+1` as set by
`load`) when nothing qualifies; and `recoveredFromWal` is set if and only
if at least one INSERT or DELETE entry was replayed (it keeps its prior
value, `false` on the load path, otherwise). When some non-skipped INSERT
has a mismatched dimension, the first one reached fails to apply and
recovery aborts with an `Internal` error. -/
theorem replayWal_characterization (c : CollectionState) (entries : List Entry) :
    ((∀ e ∈ entries, c.lastPersistedLsn < e.lsn → e.type = opINSERT →
        e.embedding.length = c.index.dim) →
      (Collection.replayWal c entries c.lastPersistedLsn).2 = .ok ∧
      (Collection.replayWal c entries c.lastPersistedLsn).1.index =
        ((entries.filter fun e => c.lastPersistedLsn < e.lsn).foldl
          replayApplySpec (c.index, c.metadata)).1 ∧
      (Collection.replayWal c entries c.lastPersistedLsn).1.metadata =
        ((entries.filter fun e => c.lastPersistedLsn < e.lsn).foldl
          replayApplySpec (c.index, c.metadata)).2 ∧
      (Collection.replayWal c entries c.lastPersistedLsn).1.lsnCounter =
        (entries.filter fun e => c.lastPersistedLsn < e.lsn).foldl
          (fun m e => max m (e.lsn + 1)) c.lsnCounter ∧
      (Collection.replayWal c entries c.lastPersistedLsn).1.txidCounter =
        (entries.filter fun e => c.lastPersistedLsn < e.lsn).foldl
          (fun m e => max m (e.txid + 1)) c.txidCounter ∧
      (Collection.replayWal c entries c.lastPersistedLsn).1.recoveredFromWal =
        (c.recoveredFromWal ||
          (entries.filter fun e => c.lastPersistedLsn < e.lsn).any isReplayedType) ∧
      (Collection.replayWal c entries c.lastPersistedLsn).1.wal = c.wal) ∧
    ((∃ e ∈ entries, c.lastPersistedLsn < e.lsn ∧ e.type = opINSERT ∧
        e.embedding.length ≠ c.index.dim) →
      (Collection.replayWal c entries c.lastPersistedLsn).2 = .internal) := by
  constructor
  · intro hgood
    have hloop := replayLoop_ok c.lastPersistedLsn entries c
      c.lsnCounter c.txidCounter 0 hgood
    unfold Collection.replayWal
    rw [hloop]
    have hflag :
        (if 0 < 0 + ((entries.filter fun e => c.lastPersistedLsn < e.lsn).countP
            isReplayedType) then true else c.recoveredFromWal) =
        (c.recoveredFromWal ||
          (entries.filter fun e => c.lastPersistedLsn < e.lsn).any isReplayedType) := by
      by_cases hpos :
          0 < ((entries.filter fun e => c.lastPersistedLsn < e.lsn).countP
            isReplayedType)
      · rw [if_pos (by omega)]
        have hany : (entries.filter fun e => c.lastPersistedLsn < e.lsn).any
            isReplayedType = true := by
          rw [List.any_eq_true]
          exact List.countP_pos_iff.mp hpos
        rw [hany, Bool.or_true]
      · rw [if_neg (by omega)]
        have hany : (entries.filter fun e => c.lastPersistedLsn < e.lsn).any
            isReplayedType = false := by
          rw [List.any_eq_false]
          intro x hxmem
          by_contra hcon
          exact hpos (List.countP_pos_iff.mpr ⟨x, hxmem, by simpa using hcon⟩)
        rw [hany, Bool.or_false]
    refine ⟨rfl, rfl, rfl, rfl, rfl, ?_, rfl⟩
    exact hflag
  · intro hbad
    have hloop := replayLoop_fail c.lastPersistedLsn entries c
      c.lsnCounter c.txidCounter 0 hbad
    unfold Collection.replayWal
    exact hloop

set_option maxRecDepth 100000 in
/-- C4 witness: the failure half of the characterisation applied at a
concrete collection and entry list containing a non-skipped INSERT entry
whose embedding length does not match the index dimension — recovery
aborts with `Internal`. -/
theorem replayWal_characterization_witness :
    (Collection.replayWal colR
      [mkInsertEntry 2 9 [5] 2 2] colR.lastPersistedLsn).2 = .internal :=
  (replayWal_characterization colR [mkInsertEntry 2 9 [5] 2 2]).2
    ⟨mkInsertEntry 2 9 [5] 2 2, by decide, by decide, by decide, by decide⟩

--------------------------------------------------------------------------
-- Helper lemmas: counters across single operations
--------------------------------------------------------------------------

theorem walStep_cases (c : CollectionState) (w : Bool) (e : Entry) :
    walStep c w e = .ok c ∨ walStep c w e = .ok { c with wal := c.wal ++ [e] } ∨
    walStep c w e = .error .ioError := by
  unfold walStep
  by_cases hw : c.hasWal = true
  · by_cases hwo : w = true
    · right; left; rw [if_pos hw, if_pos hwo]
    · right; right; rw [if_pos hw, if_neg hwo]
  · left; rw [if_neg hw]

theorem insert_result_cases (c : CollectionState) (w : Bool) (id : Nat)
    (vec : List Nat) :
    (vec.length ≠ c.dimensions ∧
      Collection.insert c w id vec = (c, .dimensionMismatch)) ∨
    (vec.length = c.dimensions ∧
      (Collection.insert c w id vec).1.lsnCounter = c.lsnCounter + 1 ∧
      (Collection.insert c w id vec).1.txidCounter = c.txidCounter + 1) := by
  by_cases hv : vec.length ≠ c.dimensions
  · left
    refine ⟨hv, ?_⟩
    unfold Collection.insert
    rw [if_pos hv]
  · right
    refine ⟨not_not.mp hv, ?_⟩
    unfold Collection.insert
    rw [if_neg hv]
    dsimp only
    rcases walStep_cases
        { c with lsnCounter := c.lsnCounter + 1, txidCounter := c.txidCounter + 1 }
        w (mkInsertEntry c.dimensions id vec c.lsnCounter c.txidCounter) with
      h | h | h <;> rw [h] <;> dsimp only
    · rcases hins : ({ c with lsnCounter := c.lsnCounter + 1, txidCounter := c.txidCounter + 1 } : CollectionState).index.insert id vec with ⟨idx2, b⟩
      cases b <;> exact ⟨rfl, rfl⟩
    · rcases hins : ({ c with lsnCounter := c.lsnCounter + 1, txidCounter := c.txidCounter + 1, wal := c.wal ++ [mkInsertEntry c.dimensions id vec c.lsnCounter c.txidCounter] } : CollectionState).index.insert id vec with ⟨idx2, b⟩
      cases b <;> exact ⟨rfl, rfl⟩
    · exact ⟨rfl, rfl⟩

theorem insert_counters_mono (c : CollectionState) (w : Bool) (id : Nat)
    (vec : List Nat) :
    c.lsnCounter ≤ (Collection.insert c w id vec).1.lsnCounter ∧
    c.txidCounter ≤ (Collection.insert c w id vec).1.txidCounter := by
  rcases insert_result_cases c w id vec with ⟨_, h⟩ | ⟨_, h1, h2⟩
  · rw [h]
    exact ⟨le_refl _, le_refl _⟩
  · rw [h1, h2]
    omega

theorem insert_ok_facts (c : CollectionState) (w : Bool) (id : Nat)
    (vec : List Nat) (hok : (Collection.insert c w id vec).2 = .ok) :
    vec.length = c.dimensions ∧
    (Collection.insert c w id vec).1.lsnCounter = c.lsnCounter + 1 ∧
    (Collection.insert c w id vec).1.txidCounter = c.txidCounter + 1 := by
  rcases insert_result_cases c w id vec with ⟨_, h⟩ | ⟨hv, h1, h2⟩
  · rw [h] at hok
    exact absurd hok (by simp)
  · exact ⟨hv, h1, h2⟩

theorem remove_counters (c : CollectionState) (w : Bool) (id : Nat) :
    (Collection.remove c w id).1.lsnCounter = c.lsnCounter + 1 ∧
    (Collection.remove c w id).1.txidCounter = c.txidCounter + 1 := by
  unfold Collection.remove
  dsimp only
  rcases walStep_cases
      { c with lsnCounter := c.lsnCounter + 1, txidCounter := c.txidCounter + 1 }
      w (mkDeleteEntry id c.lsnCounter c.txidCounter) with
    h | h | h <;> rw [h] <;> dsimp only
  · rcases hmd : ({ c with lsnCounter := c.lsnCounter + 1, txidCounter := c.txidCounter + 1 } : CollectionState).index.markDelete id with ⟨idx2, st⟩
    cases st <;> exact ⟨rfl, rfl⟩
  · rcases hmd : ({ c with lsnCounter := c.lsnCounter + 1, txidCounter := c.txidCounter + 1, wal := c.wal ++ [mkDeleteEntry id c.lsnCounter c.txidCounter] } : CollectionState).index.markDelete id with ⟨idx2, st⟩
    cases st <;> exact ⟨rfl, rfl⟩
  · exact ⟨rfl, rfl⟩

theorem insertBatch_counters_mono (c : CollectionState) (w : Bool)
    (batch : List (Nat × List Nat)) :
    c.lsnCounter ≤ (Collection.insertBatch c w batch).1.lsnCounter ∧
    c.txidCounter ≤ (Collection.insertBatch c w batch).1.txidCounter := by
  have hs := batchPhase2_spec c.dimensions batch c.lsnCounter c.txidCounter
  rcases hrec : batchPhase2 c.dimensions c.lsnCounter c.txidCounter batch with
    ⟨rs, es, l, t, f2⟩
  rw [hrec] at hs
  dsimp only at hs
  obtain ⟨e1, e2, e3, e4, e5, e6⟩ := hs
  rcases h4rec : batchPhase4 c.index (batch.zip rs) with ⟨i2, res, s, f4⟩
  unfold Collection.insertBatch
  rw [hrec]
  dsimp only
  split_ifs <;> simp [h4rec, e2, e5, e6]

theorem insertBatch_ok_counters (c : CollectionState) (w : Bool)
    (batch : List (Nat × List Nat))
    (hok : (Collection.insertBatch c w batch).2.isOk = true) :
    (Collection.insertBatch c w batch).1.lsnCounter =
      c.lsnCounter + validCount c.dimensions batch ∧
    (Collection.insertBatch c w batch).1.txidCounter =
      c.txidCounter + validCount c.dimensions batch := by
  have hs := batchPhase2_spec c.dimensions batch c.lsnCounter c.txidCounter
  rcases hrec : batchPhase2 c.dimensions c.lsnCounter c.txidCounter batch with
    ⟨rs, es, l, t, f2⟩
  rw [hrec] at hs
  dsimp only at hs
  obtain ⟨e1, e2, e3, e4, e5, e6⟩ := hs
  rcases h4rec : batchPhase4 c.index (batch.zip rs) with ⟨i2, res, s, f4⟩
  unfold Collection.insertBatch at hok ⊢
  rw [hrec] at hok ⊢
  dsimp only at hok ⊢
  split_ifs at hok ⊢ with h1 h2
  · simp_all [h4rec]
  · dsimp only at hok
    simp [Except.isOk, Except.toBool] at hok
  · simp_all [h4rec]

--------------------------------------------------------------------------
-- Helper lemmas: runOp / runSeq bounds
--------------------------------------------------------------------------

theorem runOp_mono (c : CollectionState) (op : MutOp) (w : Bool) :
    c.lsnCounter ≤ (runOp c op w).1.lsnCounter ∧
    c.txidCounter ≤ (runOp c op w).1.txidCounter := by
  cases op with
  | ins id vec => exact insert_counters_mono c w id vec
  | insBatch batch => exact insertBatch_counters_mono c w batch
  | rem id =>
    have h := remove_counters c w id
    dsimp [runOp]
    omega

theorem runOp_ok_bounds (c : CollectionState) (op : MutOp) (w : Bool)
    (hok : (runOp c op w).2.success = true) :
    (∀ a ∈ (runOp c op w).2.lsns,
       c.lsnCounter ≤ a ∧ a < (runOp c op w).1.lsnCounter) ∧
    (∀ a ∈ (runOp c op w).2.txids,
       c.txidCounter ≤ a ∧ a < (runOp c op w).1.txidCounter) := by
  cases op with
  | ins id vec =>
    dsimp [runOp] at hok ⊢
    have hok2 : (Collection.insert c w id vec).2 = .ok := by
      simpa using hok
    obtain ⟨hv, hl, ht⟩ := insert_ok_facts c w id vec hok2
    rw [if_pos hv, if_pos hv, hl, ht]
    constructor <;> (intro a ha; simp at ha; omega)
  | insBatch batch =>
    dsimp [runOp] at hok ⊢
    obtain ⟨hl, ht⟩ := insertBatch_ok_counters c w batch hok
    rw [hl, ht]
    constructor <;> (intro a ha; rw [List.mem_range'_1] at ha; omega)
  | rem id =>
    dsimp [runOp]
    have h := remove_counters c w id
    constructor <;> (intro a ha; simp at ha; omega)

theorem runSeq_lower (ops : List (MutOp × Bool)) :
    ∀ c : CollectionState, ∀ o ∈ runSeq c ops, o.success = true →
      (∀ a ∈ o.lsns, c.lsnCounter ≤ a) ∧ (∀ b ∈ o.txids, c.txidCounter ≤ b) := by
  induction ops with
  | nil =>
    intro c o ho
    simp [runSeq] at ho
  | cons p rest ih =>
    rcases p with ⟨op, w⟩
    intro c o ho hsucc
    rw [runSeq] at ho
    rcases List.mem_cons.mp ho with heq | hrest
    · subst heq
      have hb := runOp_ok_bounds c op w hsucc
      exact ⟨fun a ha => (hb.1 a ha).1, fun b hb2 => (hb.2 b hb2).1⟩
    · have hlow := ih (runOp c op w).1 o hrest hsucc
      have hmono := runOp_mono c op w
      exact ⟨fun a ha => le_trans hmono.1 (hlow.1 a ha),
             fun b hb2 => le_trans hmono.2 (hlow.2 b hb2)⟩

theorem runSeq_pairwise (ops : List (MutOp × Bool)) :
    ∀ c : CollectionState,
      List.Pairwise (fun o1 o2 => o1.success = true → o2.success = true →
        (∀ a ∈ o1.lsns, ∀ b ∈ o2.lsns, a < b) ∧
        (∀ a ∈ o1.txids, ∀ b ∈ o2.txids, a < b)) (runSeq c ops) := by
  induction ops with
  | nil =>
    intro c
    simp [runSeq]
  | cons p rest ih =>
    rcases p with ⟨op, w⟩
    intro c
    rw [runSeq]
    refine List.Pairwise.cons ?_ (ih (runOp c op w).1)
    intro o ho hs1 hs2
    have hup := runOp_ok_bounds c op w hs1
    have hlow := runSeq_lower rest (runOp c op w).1 o ho hs2
    constructor
    · intro a ha b hb
      have h1 := (hup.1 a ha).2
      have h2 := hlow.1 b hb
      omega
    · intro a ha b hb
      have h1 := (hup.2 a ha).2
      have h2 := hlow.2 b hb
      omega

--------------------------------------------------------------------------
-- C5: strict LSN/TXID monotonicity across successful mutations
--------------------------------------------------------------------------

/-- C5: run any sequence of mutating operations (insert, insertBatch,
remove, each with its WAL-fsync oracle) on a collection. For any two
operations A (at position `i`) then B (at position `j`), if both succeed,
every LSN assigned during A is strictly smaller than every LSN assigned
during B, and likewise for TXIDs — counters assigned to successful
mutations never repeat or decrease within one collection instance. -/
theorem lsn_txid_strictly_monotone (c : CollectionState)
    (ops : List (MutOp × Bool)) (i j : Nat)
    (hi : i < (runSeq c ops).length) (hj : j < (runSeq c ops).length)
    (hij : i < j)
    (hsi : ((runSeq c ops).get ⟨i, hi⟩).success = true)
    (hsj : ((runSeq c ops).get ⟨j, hj⟩).success = true) :
    (∀ a ∈ ((runSeq c ops).get ⟨i, hi⟩).lsns,
       ∀ b ∈ ((runSeq c ops).get ⟨j, hj⟩).lsns, a < b) ∧
    (∀ a ∈ ((runSeq c ops).get ⟨i, hi⟩).txids,
       ∀ b ∈ ((runSeq c ops).get ⟨j, hj⟩).txids, a < b) :=
  (List.pairwise_iff_get.mp (runSeq_pairwise ops c)) ⟨i, hi⟩ ⟨j, hj⟩ hij hsi hsj

/-- C5 witness: a concrete run (an insert then a remove, both succeeding)
on a concrete collection; the LSNs and TXIDs of the first operation are
strictly below those of the second. -/
theorem lsn_txid_strictly_monotone_witness :
    (∀ a ∈ ((runSeq colW [(MutOp.ins 1 [7, 8], true), (MutOp.rem 1, true)]).get
        ⟨0, by decide⟩).lsns,
     ∀ b ∈ ((runSeq colW [(MutOp.ins 1 [7, 8], true), (MutOp.rem 1, true)]).get
        ⟨1, by decide⟩).lsns, a < b) ∧
    (∀ a ∈ ((runSeq colW [(MutOp.ins 1 [7, 8], true), (MutOp.rem 1, true)]).get
        ⟨0, by decide⟩).txids,
     ∀ b ∈ ((runSeq colW [(MutOp.ins 1 [7, 8], true), (MutOp.rem 1, true)]).get
        ⟨1, by decide⟩).txids, a < b) :=
  lsn_txid_strictly_monotone colW [(MutOp.ins 1 [7, 8], true), (MutOp.rem 1, true)]
    0 1 (by decide) (by decide) (by decide) (by decide) (by decide)

end ArrowDB
